import Mathlib

/-!
Verification of the idempotent partition-and-mark engine of
`src/Split/parquet-splitter.py`.

The Python program is shallowly embedded: Python `str` values are Lean
`String`s and the Python string primitives used by the code
(`rsplit("/", 1)[-1]`, `endswith`, slicing `[:-n]`, `rstrip('/')`,
`startswith`) are modelled character-by-character on `String.data`.
Python `set`s are modelled as deduplicated lists, `pandas.DataFrame`s as a
column list plus a row list, the S3 object store as a list of
(bucket, key) pairs, and the per-date processing loop of `process_kind`
as a state-passing function producing a trace of successful put events.
-/

namespace GlueParquetSplitter

/-! ## Character-level models of the Python string primitives -/

/-- Models Python `k.rsplit("/", 1)[-1]`: the substring after the last
slash (the whole string when no slash occurs). -/
def lastSegment (s : String) : String :=
  ⟨(s.data.reverse.takeWhile (fun c => decide (c ≠ '/'))).reverse⟩

/-- Models Python `s.endswith(t)`. -/
def strEndsWith (s t : String) : Bool :=
  t.data.isSuffixOf s.data

/-- Models Python `s.startswith(t)` (the S3 listing prefix filter). -/
def strStartsWith (s t : String) : Bool :=
  t.data.isPrefixOf s.data

/-- Models Python `s[:-n]` for `n > 0`: drop the final `n` characters
(empty result when the string is no longer than `n`). -/
def strDropRight (s : String) (n : Nat) : String :=
  ⟨s.data.take (s.data.length - n)⟩

/-- Models Python `s.rstrip('/') + '/'`, the prefix normalization at the
top of `process_kind` (lines 119-121). -/
def normPfx (s : String) : String :=
  ⟨(s.data.reverse.dropWhile (fun c => decide (c = '/'))).reverse⟩ ++ "/"

/-- The code-point lexicographic order used by Python `sorted` on
strings, expressed on the character lists (this agrees with `String.lt`
by `String.lt_iff_toList_lt`, but unlike the latter it evaluates inside
the kernel). -/
def strLe (a b : String) : Prop :=
  a.data ≤ b.data

/-- Strict version of `strLe`. -/
def strLt (a b : String) : Prop :=
  a.data < b.data

instance : DecidableRel strLe :=
  fun a b => inferInstanceAs (Decidable (a.data ≤ b.data))

instance : DecidableRel strLt :=
  fun a b => inferInstanceAs (Decidable (a.data < b.data))

instance : IsTrans String strLe :=
  ⟨fun _ _ _ h1 h2 => le_trans h1 h2⟩

instance : IsAntisymm String strLe :=
  ⟨fun a b h1 h2 => by
    cases a
    cases b
    exact congrArg String.mk (le_antisymm h1 h2)⟩

instance : IsTotal String strLe :=
  ⟨fun a b => le_total a.data b.data⟩

/-! ## Data model: decoded tables -/

/-- One row of a decoded parquet table. `item_ID` is the value of the
row in the `"Item_ID"` column; `none` models a null/missing value
(pandas `NaN`). `payload` stands for the remaining columns' data. -/
structure Row where
  item_ID : Option String
  payload : Nat
deriving DecidableEq

/-- A decoded `pandas.DataFrame`: its column labels and its rows. -/
structure DataFrame where
  cols : List String
  rows : List Row
deriving DecidableEq

/-- Models pandas `df.empty`: true when any axis has length zero. -/
def DataFrame.empty (df : DataFrame) : Bool :=
  df.rows.isEmpty || df.cols.isEmpty

/-- The distinct non-null `Item_ID` values, in ascending order: pandas
`df.groupby("Item_ID")` iterates its groups in sorted key order and
drops rows whose key is null (`dropna=True` is the default). -/
def distinctKeys (rows : List Row) : List String :=
  ((rows.filterMap Row.item_ID).dedup).insertionSort strLe

/-- Models `df.groupby("Item_ID")` (line 166): the list of
(key value, sub-table) pairs, one per distinct non-null key, each
sub-table keeping the input's row order. -/
def groupby (df : DataFrame) : List (String × List Row) :=
  (distinctKeys df.rows).map
    (fun k => (k, df.rows.filter (fun r => decide (r.item_ID = some k))))

/-! ## KeySetDiffer: `extract_dates_from_keys` and the diff (lines 62-81, 135-138) -/

/-- Models `extract_dates_from_keys` (lines 62-69): from each key take
the final path segment; if it ends in `".parquet"` strip the last 8
characters, otherwise ignore the key; collect the results as a set
(modelled as a deduplicated list). -/
def extract_dates_from_keys (keys : List String) : List String :=
  (keys.filterMap (fun k =>
    if strEndsWith (lastSegment k) ".parquet" then
      some (strDropRight (lastSegment k) 8)
    else none)).dedup

/-- Models `extract_dates_from_marker_keys` (lines 74-81): same as
`extract_dates_from_keys` but for the `".json"` suffix, stripping the
last 5 characters. -/
def extract_dates_from_marker_keys (keys : List String) : List String :=
  (keys.filterMap (fun k =>
    if strEndsWith (lastSegment k) ".json" then
      some (strDropRight (lastSegment k) 5)
    else none)).dedup

/-- Models line 138, `sorted(input_dates - done_dates)`: the input
identifiers that have no marker, sorted ascending. -/
def missing_dates (in_keys marker_keys : List String) : List String :=
  ((extract_dates_from_keys in_keys).filter
    (fun d => decide (d ∉ extract_dates_from_marker_keys marker_keys))).insertionSort strLe

/-- Modelled from the spec of the KeySetDiffer, for the refinement part
of the diff-correctness claim: a unit identifier is obtained from a key
by taking the final path segment and stripping the role's suffix, and
keys not matching the suffix are ignored. -/
def specUnitIds (sfx : String) (keys : List String) : Finset String :=
  (keys.filterMap (fun k =>
    if strEndsWith (lastSegment k) sfx then
      some (strDropRight (lastSegment k) (sfx.length))
    else none)).toFinset

/-! ## MarkerRecorder data (lines 175-186) -/

/-- A broken-down UTC time, as returned by `time.gmtime()`. -/
structure Tm where
  year : Nat
  month : Nat
  day : Nat
  hour : Nat
  minute : Nat
  second : Nat
deriving DecidableEq

/-- Zero-pad a number to two digits, as the strftime conversions
`%m %d %H %M %S` do. -/
def pad2 (n : Nat) : String :=
  if n < 10 then "0" ++ toString n else toString n

/-- Models `time.strftime("%Y-%m-%dT%H:%M:%SZ", time.gmtime())`
(line 183). -/
def fmtTimestamp (t : Tm) : String :=
  toString t.year ++ "-" ++ pad2 t.month ++ "-" ++ pad2 t.day ++ "T" ++
    pad2 t.hour ++ ":" ++ pad2 t.minute ++ ":" ++ pad2 t.second ++ "Z"

/-- The completion-marker document built at lines 177-184, with exactly
the fields of the `marker_doc` dict literal. -/
structure MarkerDoc where
  kind : String
  date : String
  input_key : String
  outputs : List String
  output_count : Nat
  generated_at : String
deriving DecidableEq

/-! ## The object store, configuration and environment -/

/-- The configuration arguments of `process_kind` (line 117). The three
path arguments are the raw, not yet normalized, values. -/
structure Cfg where
  kind : String
  in_bucket : String
  out_bucket : String
  inPfx : String
  outPfx : String
  markerPfx : String
deriving DecidableEq

/-- The external collaborators of the engine. `tableAt` is the decoded
content an input object would have (`get_object` + `read_parquet`);
`writeOk` says whether `s3.put_object` at a location succeeds;
`reorder` is the order in which `as_completed` yields one date's
submitted partition-write tasks (in the theorems it is constrained to a
permutation); `now` is `time.gmtime()` at the moment the marker for a
date is recorded. -/
structure Env where
  tableAt : String → String → DataFrame
  writeOk : String → String → Bool
  reorder : String → List (String × List Row) → List (String × List Row)
  now : String → Tm

/-- A successful S3 put, as recorded in the run trace: either a
partition object (`write_one_partition`, lines 102-105, with the rows
the encoded payload holds) or a completion-marker JSON document
(`put_json`, lines 108-114). -/
inductive Event
  | putObject (bucket key : String) (rows : List Row)
  | putJson (bucket key : String) (doc : MarkerDoc)
deriving DecidableEq

/-- The bucket an event wrote to. -/
def Event.bucket : Event → String
  | .putObject b _ _ => b
  | .putJson b _ _ => b

/-- Whether an event is a completion-marker write. -/
def Event.isMarkerPut : Event → Bool
  | .putObject _ _ _ => false
  | .putJson _ _ _ => true

/-- The exceptions that escape `process_kind` and kill the run: the
`ValueError` of line 159 and a failed `s3.put_object`. -/
inductive RunError
  | noItemIdColumn (in_key : String)
  | writeFailed (bucket key : String)
deriving DecidableEq

/-- The evolving state of a run: the store contents (a list of
(bucket, key) pairs), the trace of successful puts, and the `processed`
counter of lines 143 and 188. -/
structure RunState where
  store : List (String × String)
  events : List Event
  processed : Nat
deriving DecidableEq

/-- The partition-write tasks submitted for one date (lines 166-168):
for each group, the output key `{out_prefix}{Item_ID}/{date}.parquet`
together with the group's rows. Expects `c` to be already normalized. -/
def tasksOf (c : Cfg) (date : String) (df : DataFrame) : List (String × List Row) :=
  (groupby df).map (fun g => (c.outPfx ++ g.1 ++ "/" ++ date ++ ".parquet", g.2))

/-- A fully qualified S3 location, as interpolated in lines 171 and 180. -/
def s3Uri (bucket key : String) : String :=
  "s3://" ++ bucket ++ "/" ++ key

/-- The input key `{in_prefix}{date}.parquet` of line 145 (for a
normalized configuration). -/
def inKeyOf (c : Cfg) (date : String) : String :=
  c.inPfx ++ date ++ ".parquet"

/-- The marker key `{marker_prefix}{date}.json` of line 176 (for a
normalized configuration). -/
def markerKeyOf (c : Cfg) (date : String) : String :=
  c.markerPfx ++ date ++ ".json"

/-- The decoded table the environment supplies for a date's input
object (`read_parquet_s3`, line 148). -/
def dfOf (c : Cfg) (env : Env) (date : String) : DataFrame :=
  env.tableAt c.in_bucket (inKeyOf c date)

/-- The submitted tasks whose `put_object` succeeds; since every
submitted task runs to completion, exactly these writes land in the
store. -/
def landedOf (c : Cfg) (env : Env) (date : String) (df : DataFrame) :
    List (String × List Row) :=
  (tasksOf c date df).filter (fun t => env.writeOk c.out_bucket t.1)

/-- The state after one date's partition-write fan-out (lines 162-171):
each landed write is appended to the store and to the trace. -/
def writePhase (c : Cfg) (env : Env) (st : RunState) (date : String) (df : DataFrame) :
    RunState :=
  { st with
    store := st.store ++ (landedOf c env date df).map (fun t => (c.out_bucket, t.1))
    events := st.events ++
      (landedOf c env date df).map (fun t => Event.putObject c.out_bucket t.1 t.2) }

/-- The `outputs_written` list of a fully successful date (line 171):
the full S3 URIs of the date's output keys, in `as_completed` order. -/
def outputsOf (c : Cfg) (env : Env) (date : String) (df : DataFrame) : List String :=
  (env.reorder date (tasksOf c date df)).map (fun t => s3Uri c.out_bucket t.1)

/-- The `marker_doc` dict of lines 177-184. -/
def markerDocOf (c : Cfg) (env : Env) (date : String) (df : DataFrame) : MarkerDoc :=
  { kind := c.kind
    date := date
    input_key := s3Uri c.in_bucket (inKeyOf c date)
    outputs := outputsOf c env date df
    output_count := (outputsOf c env date df).length
    generated_at := fmtTimestamp (env.now date) }

/-- The body of the per-date loop of `process_kind` (lines 144-188),
for one date. Expects `c` to be already normalized. Returns
`(some e, st)` when the exception `e` escapes the iteration and kills
the run, `(none, st)` when the loop continues with the next date.

Branches, in the code's order: a missing input object (`NoSuchKey`,
lines 150-152) skips the date; an empty table (lines 154-156) skips the
date; a missing `"Item_ID"` column (lines 158-159) raises; the
partition writes are submitted for every group and every submitted task
runs to completion (the `ThreadPoolExecutor` context manager waits and
does not cancel), so every task whose put succeeds lands in the store;
the results are then observed in `as_completed` order and the first
observed failure propagates (line 170); otherwise the marker is written
(line 185) and `processed` is incremented. -/
def processDate (c : Cfg) (env : Env) (st : RunState) (date : String) :
    Option RunError × RunState :=
  if (c.in_bucket, inKeyOf c date) ∈ st.store then
    if (dfOf c env date).empty then (none, st)
    else if "Item_ID" ∈ (dfOf c env date).cols then
      match (env.reorder date (tasksOf c date (dfOf c env date))).find?
          (fun t => ! env.writeOk c.out_bucket t.1) with
      | some t =>
        (some (RunError.writeFailed c.out_bucket t.1), writePhase c env st date (dfOf c env date))
      | none =>
        if env.writeOk c.out_bucket (markerKeyOf c date) then
          (none,
            { store := (writePhase c env st date (dfOf c env date)).store ++
                [(c.out_bucket, markerKeyOf c date)]
              events := (writePhase c env st date (dfOf c env date)).events ++
                [Event.putJson c.out_bucket (markerKeyOf c date)
                  (markerDocOf c env date (dfOf c env date))]
              processed := (writePhase c env st date (dfOf c env date)).processed + 1 })
        else
          (some (RunError.writeFailed c.out_bucket (markerKeyOf c date)),
            writePhase c env st date (dfOf c env date))
    else (some (RunError.noItemIdColumn (inKeyOf c date)), st)
  else (none, st)

/-- The `for date in missing_dates` loop of lines 144-188: dates are
processed sequentially in list order; an escaping exception ends the
run at once. -/
def runDates (c : Cfg) (env : Env) : RunState → List String → Option RunError × RunState
  | st, [] => (none, st)
  | st, date :: rest =>
    match processDate c env st date with
    | (some e, st1) => (some e, st1)
    | (none, st1) => runDates c env st1 rest

/-- Models `list_keys_with_suffix` (lines 48-57): the fully paginated
listing of a bucket under a prefix (every stored key of that bucket
starting with the prefix), then the code's `endswith(suffix)` filter. -/
def list_keys_with_suffix (store : List (String × String)) (bucket pfx sfx : String) :
    List String :=
  ((store.filter (fun o => decide (o.1 = bucket) && strStartsWith o.2 pfx)).map Prod.snd).filter
    (fun k => strEndsWith k sfx)

/-- Normalizes the three path arguments, as lines 119-121 do. -/
def normCfg (c : Cfg) : Cfg :=
  { c with inPfx := normPfx c.inPfx, outPfx := normPfx c.outPfx, markerPfx := normPfx c.markerPfx }

/-- The result of one `process_kind` invocation: the computed
outstanding list, the escaping exception if any, the final store and
trace, and the counters the returned summary dict is built from. -/
structure RunOutcome where
  missing : List String
  error : Option RunError
  store : List (String × String)
  events : List Event
  processed : Nat
deriving DecidableEq

/-- The input-eligible identifier set of a store (lines 125, 135),
against normalized configuration `c`. -/
def inputDatesOf (c : Cfg) (store : List (String × String)) : List String :=
  extract_dates_from_keys (list_keys_with_suffix store c.in_bucket c.inPfx ".parquet")

/-- The done identifier set of a store (lines 130, 136), against
normalized configuration `c`. -/
def doneDatesOf (c : Cfg) (store : List (String × String)) : List String :=
  extract_dates_from_marker_keys (list_keys_with_suffix store c.out_bucket c.markerPfx ".json")

/-- Models `process_kind` (lines 117-196): normalize the prefixes, list
both roles, diff the identifier sets, and run the per-date loop over
the sorted outstanding list, starting from store state `store0` with an
empty trace. -/
def process_kind (c : Cfg) (env : Env) (store0 : List (String × String)) : RunOutcome :=
  let n := normCfg c
  let missing := ((inputDatesOf n store0).filter
    (fun d => decide (d ∉ doneDatesOf n store0))).insertionSort strLe
  let r := runDates n env ⟨store0, [], 0⟩ missing
  ⟨missing, r.1, r.2.store, r.2.events, r.2.processed⟩

/-- The disjointness half of the partition claim: no row lies in two
distinct groups emitted by the partitioner. -/
def pairwiseDisjointParts (df : DataFrame) : Prop :=
  ∀ p ∈ groupby df, ∀ q ∈ groupby df, p ≠ q → ∀ r ∈ p.2, r ∉ q.2

/-- A configuration for the schema-violation counterexample. -/
def cfgC7 : Cfg := ⟨"k", "inb", "outb", "in", "out", "m"⟩

/-- An environment in which the input for `20250101` decodes to a
zero-row table without the `"Item_ID"` column, while the input for
`20250108` is a well-formed one-row table. -/
def envC7 : Env :=
  ⟨fun _ k =>
      if k = "in/20250101.parquet" then ⟨["foo"], []⟩
      else ⟨["Item_ID"], [⟨some "A", 0⟩]⟩,
    fun _ _ => true,
    fun _ l => l,
    fun _ => ⟨2025, 1, 1, 0, 0, 0⟩⟩

/-- The store for the schema-violation counterexample: both inputs
present, no markers. -/
def storeC7 : List (String × String) :=
  [("inb", "in/20250101.parquet"), ("inb", "in/20250108.parquet")]

/-- Witness environment for the write-failure claim: the put of the
`"B"` partition fails, everything else succeeds. -/
def envC3 : Env :=
  ⟨fun _ _ => ⟨["Item_ID"], [⟨some "A", 0⟩, ⟨some "B", 1⟩]⟩,
    fun _ k => decide (k ≠ "out/B/d.parquet"),
    fun _ l => l,
    fun _ => ⟨0, 0, 0, 0, 0, 0⟩⟩

/-- Witness environment for the marker-faithfulness claim. -/
def envC4 : Env :=
  ⟨fun _ _ => ⟨["Item_ID"], [⟨some "A", 0⟩, ⟨some "A", 1⟩, ⟨some "B", 2⟩]⟩,
    fun _ _ => true,
    fun _ l => l,
    fun _ => ⟨2025, 1, 2, 3, 4, 5⟩⟩

/-- Witness environment for the null-key claim: one null-keyed row
among two `"A"` rows. -/
def envC9 : Env :=
  ⟨fun _ _ => ⟨["Item_ID"], [⟨some "A", 0⟩, ⟨none, 1⟩, ⟨some "A", 2⟩]⟩,
    fun _ _ => true,
    fun _ l => l,
    fun _ => ⟨2025, 1, 2, 3, 4, 5⟩⟩

/-- Witness configuration for the idempotence claim. -/
def cfgC5 : Cfg := ⟨"k", "inb", "outb", "in", "out", "m"⟩

/-- Witness environment for the idempotence claim: one single-row input
table, all writes succeed. -/
def envC5 : Env :=
  ⟨fun _ _ => ⟨["Item_ID"], [⟨some "A", 0⟩]⟩,
    fun _ _ => true,
    fun _ l => l,
    fun _ => ⟨2025, 1, 1, 0, 0, 0⟩⟩

/-- Witness store for the idempotence claim: one input object, no
markers. -/
def storeC5 : List (String × String) := [("inb", "in/20250101.parquet")]

/-- The loop body's effect, factored out of the state: the escaping
exception, the store entries appended, the events appended and the
increment of `processed`, as a function of the date and of whether the
input object is present. Proof device for the frame lemmas; the
behavior itself is `processDate`. -/
def dateDelta (c : Cfg) (env : Env) (d : String) (present : Bool) :
    Option RunError × List (String × String) × List Event × Nat :=
  if present then
    if (dfOf c env d).empty then (none, [], [], 0)
    else if "Item_ID" ∈ (dfOf c env d).cols then
      match (env.reorder d (tasksOf c d (dfOf c env d))).find?
          (fun t => ! env.writeOk c.out_bucket t.1) with
      | some t =>
        (some (RunError.writeFailed c.out_bucket t.1),
          (landedOf c env d (dfOf c env d)).map (fun u => (c.out_bucket, u.1)),
          (landedOf c env d (dfOf c env d)).map
            (fun u => Event.putObject c.out_bucket u.1 u.2), 0)
      | none =>
        if env.writeOk c.out_bucket (markerKeyOf c d) then
          (none,
            (landedOf c env d (dfOf c env d)).map (fun u => (c.out_bucket, u.1)) ++
              [(c.out_bucket, markerKeyOf c d)],
            (landedOf c env d (dfOf c env d)).map
                (fun u => Event.putObject c.out_bucket u.1 u.2) ++
              [Event.putJson c.out_bucket (markerKeyOf c d)
                (markerDocOf c env d (dfOf c env d))], 1)
        else
          (some (RunError.writeFailed c.out_bucket (markerKeyOf c d)),
            (landedOf c env d (dfOf c env d)).map (fun u => (c.out_bucket, u.1)),
            (landedOf c env d (dfOf c env d)).map
              (fun u => Event.putObject c.out_bucket u.1 u.2), 0)
    else (some (RunError.noItemIdColumn (inKeyOf c d)), [], [], 0)
  else (none, [], [], 0)

/-- Witness environment for the frame claim. -/
def envC10 : Env :=
  ⟨fun _ _ => ⟨["Item_ID"], [⟨some "A", 0⟩]⟩,
    fun _ _ => true,
    fun _ l => l,
    fun _ => ⟨2025, 1, 1, 0, 0, 0⟩⟩

/-! ## Basic string lemmas -/

theorem String.mk_data (s : String) : String.mk s.data = s := by
  cases s
  rfl

theorem string_data_inj {a b : String} (h : a.data = b.data) : a = b := by
  cases a
  cases b
  exact congrArg String.mk h

/-! ## Lemmas about the KeySetDiffer -/

theorem ite_some_none_eq {c : Bool} {x d : String} :
    (if c then some x else none) = some d ↔ c = true ∧ x = d := by
  cases c <;> simp

theorem mem_extract_dates_from_keys {keys : List String} {d : String} :
    d ∈ extract_dates_from_keys keys ↔
      ∃ k ∈ keys, strEndsWith (lastSegment k) ".parquet" = true ∧
        strDropRight (lastSegment k) 8 = d := by
  simp [extract_dates_from_keys, List.mem_filterMap, ite_some_none_eq]

theorem mem_extract_dates_from_marker_keys {keys : List String} {d : String} :
    d ∈ extract_dates_from_marker_keys keys ↔
      ∃ k ∈ keys, strEndsWith (lastSegment k) ".json" = true ∧
        strDropRight (lastSegment k) 5 = d := by
  simp [extract_dates_from_marker_keys, List.mem_filterMap, ite_some_none_eq]

theorem mem_missing_dates {ik mk : List String} {d : String} :
    d ∈ missing_dates ik mk ↔
      d ∈ extract_dates_from_keys ik ∧ d ∉ extract_dates_from_marker_keys mk := by
  unfold missing_dates
  rw [(List.perm_insertionSort strLe _).mem_iff, List.mem_filter]
  simp

theorem nodup_extract_dates_from_keys (keys : List String) :
    (extract_dates_from_keys keys).Nodup :=
  List.nodup_dedup _

theorem nodup_missing_dates (ik mk : List String) : (missing_dates ik mk).Nodup :=
  ((List.perm_insertionSort strLe _).nodup_iff).mpr
    ((nodup_extract_dates_from_keys ik).filter _)

theorem sorted_le_missing_dates (ik mk : List String) :
    List.Sorted strLe (missing_dates ik mk) :=
  List.sorted_insertionSort strLe _

theorem sorted_strLt_of_sorted_nodup {l : List String}
    (hs : List.Sorted strLe l) (hn : l.Nodup) : List.Sorted strLt l :=
  (hs.and hn).imp (fun h =>
    lt_of_le_of_ne h.1 (fun hd => h.2 (string_data_inj hd)))

theorem sorted_strLt_missing_dates (ik mk : List String) :
    List.Sorted strLt (missing_dates ik mk) :=
  sorted_strLt_of_sorted_nodup (sorted_le_missing_dates ik mk) (nodup_missing_dates ik mk)

theorem sorted_nodup_toFinset_inj {l₁ l₂ : List String}
    (s₁ : List.Sorted strLe l₁) (s₂ : List.Sorted strLe l₂)
    (n₁ : l₁.Nodup) (n₂ : l₂.Nodup) (h : l₁.toFinset = l₂.toFinset) : l₁ = l₂ :=
  List.eq_of_perm_of_sorted (List.perm_of_nodup_nodup_toFinset_eq n₁ n₂ h) s₁ s₂

/-- Claim C1. For any listings of input keys and marker keys, the
outstanding work set computed by the key-set differ equals the sorted
ascending set difference of the spec-described unit-identifier sets
(final path segment, role suffix stripped, non-matching keys ignored):
its elements are exactly the set difference, it is sorted strictly
ascending, listings with the same key sets (in particular listings with
duplicate keys) give the same result, and a key whose final segment
does not end in the role's suffix does not affect the result. -/
theorem c1_keyset_diff (ik mk : List String) :
    ((missing_dates ik mk).toFinset =
        specUnitIds ".parquet" ik \ specUnitIds ".json" mk) ∧
      List.Sorted strLt (missing_dates ik mk) ∧
      (∀ ik2 mk2 : List String, ik.toFinset = ik2.toFinset → mk.toFinset = mk2.toFinset →
        missing_dates ik mk = missing_dates ik2 mk2) ∧
      (∀ k, strEndsWith (lastSegment k) ".parquet" = false →
        missing_dates (k :: ik) mk = missing_dates ik mk) ∧
      (∀ k, strEndsWith (lastSegment k) ".json" = false →
        missing_dates ik (k :: mk) = missing_dates ik mk) := by
  have hspec : ∀ (keys : List String) (d : String),
      (d ∈ specUnitIds ".parquet" keys ↔ d ∈ extract_dates_from_keys keys) ∧
      (d ∈ specUnitIds ".json" keys ↔ d ∈ extract_dates_from_marker_keys keys) := by
    intro keys d
    constructor
    · rw [mem_extract_dates_from_keys]
      simp [specUnitIds, List.mem_filterMap, ite_some_none_eq,
        show (".parquet".length) = 8 from rfl]
    · rw [mem_extract_dates_from_marker_keys]
      simp [specUnitIds, List.mem_filterMap, ite_some_none_eq,
        show (".json".length) = 5 from rfl]
  have hmemfin : ∀ ik2 mk2 (d : String),
      d ∈ (missing_dates ik2 mk2).toFinset ↔
        d ∈ extract_dates_from_keys ik2 ∧ d ∉ extract_dates_from_marker_keys mk2 := by
    intro ik2 mk2 d
    rw [List.mem_toFinset, mem_missing_dates]
  refine ⟨?_, sorted_strLt_missing_dates ik mk, ?_, ?_, ?_⟩
  · ext d
    rw [hmemfin, Finset.mem_sdiff, (hspec ik d).1, (hspec mk d).2]
  · intro ik2 mk2 hik hmk
    refine sorted_nodup_toFinset_inj (sorted_le_missing_dates ik mk)
      (sorted_le_missing_dates ik2 mk2) (nodup_missing_dates ik mk)
      (nodup_missing_dates ik2 mk2) ?_
    ext d
    rw [hmemfin, hmemfin]
    have h1 : ∀ x, x ∈ extract_dates_from_keys ik ↔ x ∈ extract_dates_from_keys ik2 := by
      intro x
      rw [mem_extract_dates_from_keys, mem_extract_dates_from_keys]
      constructor
      · rintro ⟨k, hk, h⟩
        exact ⟨k, (List.mem_toFinset).mp (hik ▸ List.mem_toFinset.mpr hk), h⟩
      · rintro ⟨k, hk, h⟩
        exact ⟨k, (List.mem_toFinset).mp (hik ▸ List.mem_toFinset.mpr hk), h⟩
    have h2 : ∀ x, x ∈ extract_dates_from_marker_keys mk ↔
        x ∈ extract_dates_from_marker_keys mk2 := by
      intro x
      rw [mem_extract_dates_from_marker_keys, mem_extract_dates_from_marker_keys]
      constructor
      · rintro ⟨k, hk, h⟩
        exact ⟨k, (List.mem_toFinset).mp (hmk ▸ List.mem_toFinset.mpr hk), h⟩
      · rintro ⟨k, hk, h⟩
        exact ⟨k, (List.mem_toFinset).mp (hmk ▸ List.mem_toFinset.mpr hk), h⟩
    rw [h1, h2]
  · intro k hk
    have : extract_dates_from_keys (k :: ik) = extract_dates_from_keys ik := by
      unfold extract_dates_from_keys
      rw [List.filterMap_cons_none]
      simp [hk]
    unfold missing_dates
    rw [this]
  · intro k hk
    have : extract_dates_from_marker_keys (k :: mk) = extract_dates_from_marker_keys mk := by
      unfold extract_dates_from_marker_keys
      rw [List.filterMap_cons_none]
      simp [hk]
    unfold missing_dates
    rw [this]

/-- Witness: the diff theorem applied at a concrete pair of listings
with a duplicate key, a key of the wrong suffix, and one marked unit. -/
theorem c1_keyset_diff_witness :
    List.Sorted strLt
      (missing_dates ["p/b.parquet", "p/b.parquet", "p/a.parquet", "p/nope.txt"]
        ["m/b.json"]) ∧
    missing_dates ["p/b.parquet", "p/b.parquet", "p/a.parquet", "p/nope.txt"]
        ["m/b.json"] = ["a"] :=
  ⟨(c1_keyset_diff _ _).2.1, by decide⟩

/-! ## Lemmas about the Partitioner -/

theorem filter_append_or_perm {α : Type} (p q : α → Bool)
    (h : ∀ r, p r = true → q r = false) (l : List α) :
    (l.filter p ++ l.filter q).Perm (l.filter (fun r => p r || q r)) := by
  induction l with
  | nil => simp
  | cons a l ih =>
    cases hp : p a with
    | true =>
      have hq := h a hp
      simp only [List.filter_cons, hp, hq, Bool.true_or, if_true, List.cons_append]
      exact ih.cons a
    | false =>
      cases hq : q a with
      | true =>
        simp only [List.filter_cons, hp, hq, Bool.false_or, if_true, if_false]
        exact List.perm_middle.trans (ih.cons a)
      | false =>
        simpa only [List.filter_cons, hp, hq, Bool.false_or, if_false] using ih

theorem mem_distinctKeys {rows : List Row} {k : String} :
    k ∈ distinctKeys rows ↔ ∃ r ∈ rows, r.item_ID = some k := by
  unfold distinctKeys
  rw [(List.perm_insertionSort strLe _).mem_iff, List.mem_dedup, List.mem_filterMap]

theorem nodup_distinctKeys (rows : List Row) : (distinctKeys rows).Nodup :=
  ((List.perm_insertionSort strLe _).nodup_iff).mpr (List.nodup_dedup _)

theorem bind_filter_key_perm (rows : List Row) (ks : List String) (hnd : ks.Nodup) :
    (ks.flatMap (fun k => rows.filter (fun r => decide (r.item_ID = some k)))).Perm
      (rows.filter (fun r => decide (∃ k ∈ ks, r.item_ID = some k))) := by
  induction ks with
  | nil => simp
  | cons k ks ih =>
    have hk : k ∉ ks := (List.nodup_cons.mp hnd).1
    have ihp := ih (List.nodup_cons.mp hnd).2
    rw [List.flatMap_cons]
    refine ((ihp.append_left _).trans ?_)
    refine (filter_append_or_perm _ _ ?_ rows).trans ?_
    · intro r hr
      rw [decide_eq_true_eq] at hr
      rw [decide_eq_false_iff_not]
      rintro ⟨k2, hk2, hk2eq⟩
      rw [hr] at hk2eq
      exact hk (Option.some_inj.mp hk2eq ▸ hk2)
    · refine List.Perm.of_eq (List.filter_congr ?_)
      intro r _
      refine Bool.eq_iff_iff.mpr ?_
      simp only [Bool.or_eq_true, decide_eq_true_eq, List.mem_cons]
      constructor
      · rintro (h | ⟨k2, hk2, h2⟩)
        · exact ⟨k, Or.inl rfl, h⟩
        · exact ⟨k2, Or.inr hk2, h2⟩
      · rintro ⟨k2, hm, h2⟩
        rcases hm with hm | hm
        · exact Or.inl (hm ▸ h2)
        · exact Or.inr ⟨k2, hm, h2⟩

theorem groupby_bind_perm (df : DataFrame) :
    ((groupby df).flatMap Prod.snd).Perm
      (df.rows.filter (fun r => r.item_ID.isSome)) := by
  unfold groupby
  rw [List.flatMap_map]
  show ((distinctKeys df.rows).flatMap
      (fun k => df.rows.filter (fun r => decide (r.item_ID = some k)))).Perm _
  refine (bind_filter_key_perm df.rows _ (nodup_distinctKeys df.rows)).trans ?_
  refine List.Perm.of_eq (List.filter_congr ?_)
  intro r hr
  cases hid : r.item_ID with
  | none => simp [hid]
  | some k =>
    simp only [hid, Option.isSome_some, decide_eq_true_eq]
    exact ⟨k, mem_distinctKeys.mpr ⟨r, hr, hid⟩, rfl⟩

theorem groupby_mem_key {df : DataFrame} {g : String × List Row} (hg : g ∈ groupby df)
    {r : Row} (hr : r ∈ g.2) : r.item_ID = some g.1 := by
  unfold groupby at hg
  rcases List.mem_map.mp hg with ⟨k, _, rfl⟩
  have := (List.mem_filter.mp hr).2
  rwa [decide_eq_true_eq] at this

theorem groupby_eta {df : DataFrame} {g : String × List Row} (hg : g ∈ groupby df) :
    g = (g.1, df.rows.filter (fun r => decide (r.item_ID = some g.1))) := by
  unfold groupby at hg
  rcases List.mem_map.mp hg with ⟨k, _, rfl⟩
  rfl

theorem groupby_disjoint (df : DataFrame) : pairwiseDisjointParts df := by
  intro p hp q hq hne r hrp hrq
  have h1 := groupby_mem_key hp hrp
  have h2 := groupby_mem_key hq hrq
  have hkey : p.1 = q.1 := Option.some_inj.mp (h1 ▸ h2)
  exact hne ((groupby_eta hp).trans (by rw [hkey]; exact (groupby_eta hq).symm))

/-- Claim C2, as stated, is false on the code: a row whose `Item_ID` is
null is dropped by `df.groupby` (pandas `dropna=True`), so for a table
holding one null-keyed row the union of the emitted partitions misses
that row. -/
theorem c2_partition_counterexample :
    ¬ (pairwiseDisjointParts ⟨["Item_ID"], [⟨none, 0⟩]⟩ ∧
        ((groupby ⟨["Item_ID"], [⟨none, 0⟩]⟩).flatMap Prod.snd).Perm
          (DataFrame.rows ⟨["Item_ID"], [⟨none, 0⟩]⟩)) :=
  fun h => absurd h.2 (by decide)

/-- Claim C2 (amended): the partitioning step emits pairwise disjoint
sub-tables whose union contains every row of the input table whose
`Item_ID` value is non-null exactly once (rows with a null `Item_ID`
are dropped by pandas `groupby` and appear in no partition). -/
theorem c2_partition_amended (df : DataFrame) :
    pairwiseDisjointParts df ∧
      ((groupby df).flatMap Prod.snd).Perm
        (df.rows.filter (fun r => r.item_ID.isSome)) :=
  ⟨groupby_disjoint df, groupby_bind_perm df⟩

/-- Witness: the amended partition theorem applied at a concrete table
with a duplicate row, two keys and a null-keyed row. -/
theorem c2_partition_amended_witness :
    pairwiseDisjointParts
        ⟨["Item_ID"], [⟨some "B", 0⟩, ⟨some "A", 1⟩, ⟨none, 2⟩, ⟨some "A", 1⟩]⟩ ∧
      ((groupby ⟨["Item_ID"], [⟨some "B", 0⟩, ⟨some "A", 1⟩, ⟨none, 2⟩, ⟨some "A", 1⟩]⟩).flatMap
          Prod.snd).Perm
        (DataFrame.rows
            ⟨["Item_ID"], [⟨some "B", 0⟩, ⟨some "A", 1⟩, ⟨none, 2⟩, ⟨some "A", 1⟩]⟩
          |>.filter (fun r => r.item_ID.isSome)) :=
  c2_partition_amended _

/-! ## Lemmas about key construction and extraction round trips -/

theorem takeWhile_append_all {α : Type} (p : α → Bool) (l₁ l₂ : List α)
    (h : ∀ c ∈ l₁, p c = true) :
    (l₁ ++ l₂).takeWhile p = l₁ ++ l₂.takeWhile p := by
  induction l₁ with
  | nil => simp
  | cons a l ih =>
    have ha := h a (List.mem_cons_self a l)
    simp only [List.cons_append, List.takeWhile_cons, ha, if_true]
    rw [ih (fun c hc => h c (List.mem_cons_of_mem a hc))]

theorem str_append_data (a b : String) : (a ++ b).data = a.data ++ b.data :=
  String.data_append a b

theorem str_append_assoc (a b c : String) : (a ++ b) ++ c = a ++ (b ++ c) := by
  apply string_data_inj
  simp [str_append_data, List.append_assoc]

theorem str_append_right_cancel {a b c : String} (h : a ++ c = b ++ c) : a = b := by
  apply string_data_inj
  have := congrArg String.data h
  rw [str_append_data, str_append_data] at this
  exact List.append_cancel_right this

theorem str_append_left_cancel {a b c : String} (h : a ++ b = a ++ c) : b = c := by
  apply string_data_inj
  have := congrArg String.data h
  rw [str_append_data, str_append_data] at this
  exact List.append_cancel_left this

theorem normPfx_data (s : String) :
    (normPfx s).data = (s.data.reverse.dropWhile (fun c => decide (c = '/'))).reverse ++ ['/'] := by
  rw [normPfx, str_append_data]

theorem lastSegment_no_slash (s : String) : ∀ c ∈ (lastSegment s).data, c ≠ '/' := by
  intro c hc
  rw [lastSegment] at hc
  rw [List.mem_reverse] at hc
  have hd := List.mem_takeWhile_imp hc
  simpa using hd

theorem strDropRight_chars {s : String} {n : Nat} :
    ∀ c ∈ (strDropRight s n).data, c ∈ s.data := by
  intro c hc
  rw [strDropRight] at hc
  exact List.take_subset _ _ hc

theorem extract_dates_no_slash {keys : List String} {d : String}
    (h : d ∈ extract_dates_from_keys keys) : ∀ c ∈ d.data, c ≠ '/' := by
  rcases mem_extract_dates_from_keys.mp h with ⟨k, _, _, hd⟩
  intro c hc
  exact lastSegment_no_slash k c (strDropRight_chars c (hd ▸ hc))

theorem lastSegment_append {p q : String}
    (hp : ∃ l, p.data = l ++ ['/']) (hq : ∀ c ∈ q.data, c ≠ '/') :
    lastSegment (p ++ q) = q := by
  rcases hp with ⟨l, hl⟩
  rw [lastSegment, str_append_data, List.reverse_append, takeWhile_append_all]
  · have hrev : p.data.reverse.takeWhile (fun c => decide (c ≠ '/')) = [] := by
      rw [hl, List.reverse_append]
      rfl
    rw [hrev, List.append_nil, List.reverse_reverse]
  · intro c hc
    exact decide_eq_true (hq c (List.mem_reverse.mp hc))

theorem normPfx_ends_slash (s : String) : ∃ l, (normPfx s).data = l ++ ['/'] :=
  ⟨_, normPfx_data s⟩

theorem strEndsWith_append (d q : String) : strEndsWith (d ++ q) q = true := by
  rw [strEndsWith, str_append_data]
  exact List.isSuffixOf_iff_suffix.mpr (List.suffix_append d.data q.data)

theorem strStartsWith_append (p q : String) : strStartsWith (p ++ q) p = true := by
  rw [strStartsWith, str_append_data]
  exact List.isPrefixOf_iff_prefix.mpr (List.prefix_append p.data q.data)

theorem strDropRight_append (d q : String) : strDropRight (d ++ q) q.data.length = d := by
  rw [strDropRight, str_append_data]
  have hlen : (d.data ++ q.data).length - q.data.length = d.data.length := by
    rw [List.length_append]
    omega
  rw [hlen, List.take_left]

theorem strEndsWith_getLast {s t : String} (h : strEndsWith s t = true) :
    t.data.getLast?.or s.data.getLast? = s.data.getLast? := by
  rcases List.isSuffixOf_iff_suffix.mp h with ⟨u, hu⟩
  rw [← hu, List.getLast?_append]
  cases t.data.getLast? with
  | none => simp
  | some c => simp

theorem ends_json_not_parquet {k : String} (h : strEndsWith k ".json" = true) :
    strEndsWith k ".parquet" = false := by
  cases hpq : strEndsWith k ".parquet" with
  | false => rfl
  | true =>
    have h1 := strEndsWith_getLast h
    have h2 := strEndsWith_getLast hpq
    have hn : (".json".data.getLast?) = some 'n' := by decide
    have ht : (".parquet".data.getLast?) = some 't' := by decide
    rw [hn] at h1
    rw [ht] at h2
    cases hk : k.data.getLast? with
    | none => rw [hk] at h1; exact absurd h1 (by simp)
    | some c =>
      rw [hk] at h1 h2
      have hc1 : c = 'n' := by simpa using h1.symm
      have hc2 : c = 't' := by simpa using h2.symm
      exact absurd (hc1 ▸ hc2) (by decide)

theorem ends_parquet_not_json {k : String} (h : strEndsWith k ".parquet" = true) :
    strEndsWith k ".json" = false := by
  cases hj : strEndsWith k ".json" with
  | false => rfl
  | true => rw [ends_json_not_parquet hj] at h; exact absurd h (by simp)

/-! ## Branch lemmas for the per-date loop body -/

theorem processDate_absent {c : Cfg} {env : Env} {st : RunState} {date : String}
    (h : (c.in_bucket, inKeyOf c date) ∉ st.store) :
    processDate c env st date = (none, st) := by
  unfold processDate
  rw [if_neg h]

theorem processDate_empty {c : Cfg} {env : Env} {st : RunState} {date : String}
    (hin : (c.in_bucket, inKeyOf c date) ∈ st.store)
    (hemp : (dfOf c env date).empty = true) :
    processDate c env st date = (none, st) := by
  unfold processDate
  rw [if_pos hin, if_pos hemp]

theorem processDate_no_col {c : Cfg} {env : Env} {st : RunState} {date : String}
    (hin : (c.in_bucket, inKeyOf c date) ∈ st.store)
    (hne : (dfOf c env date).empty = false)
    (hcol : "Item_ID" ∉ (dfOf c env date).cols) :
    processDate c env st date = (some (RunError.noItemIdColumn (inKeyOf c date)), st) := by
  unfold processDate
  rw [if_pos hin, if_neg (by simp [hne]), if_neg hcol]

theorem processDate_write_failed {c : Cfg} {env : Env} {st : RunState} {date : String}
    {tbad : String × List Row}
    (hin : (c.in_bucket, inKeyOf c date) ∈ st.store)
    (hne : (dfOf c env date).empty = false)
    (hcol : "Item_ID" ∈ (dfOf c env date).cols)
    (hfind : (env.reorder date (tasksOf c date (dfOf c env date))).find?
        (fun t => ! env.writeOk c.out_bucket t.1) = some tbad) :
    processDate c env st date =
      (some (RunError.writeFailed c.out_bucket tbad.1),
        writePhase c env st date (dfOf c env date)) := by
  unfold processDate
  rw [if_pos hin, if_neg (by simp [hne]), if_pos hcol, hfind]

theorem processDate_success {c : Cfg} {env : Env} {st : RunState} {date : String}
    (hin : (c.in_bucket, inKeyOf c date) ∈ st.store)
    (hne : (dfOf c env date).empty = false)
    (hcol : "Item_ID" ∈ (dfOf c env date).cols)
    (hfind : (env.reorder date (tasksOf c date (dfOf c env date))).find?
        (fun t => ! env.writeOk c.out_bucket t.1) = none)
    (hmk : env.writeOk c.out_bucket (markerKeyOf c date) = true) :
    processDate c env st date =
      (none,
        { store := (writePhase c env st date (dfOf c env date)).store ++
            [(c.out_bucket, markerKeyOf c date)]
          events := (writePhase c env st date (dfOf c env date)).events ++
            [Event.putJson c.out_bucket (markerKeyOf c date)
              (markerDocOf c env date (dfOf c env date))]
          processed := (writePhase c env st date (dfOf c env date)).processed + 1 }) := by
  unfold processDate
  rw [if_pos hin, if_neg (by simp [hne]), if_pos hcol, hfind, if_pos hmk]

theorem processDate_marker_failed {c : Cfg} {env : Env} {st : RunState} {date : String}
    (hin : (c.in_bucket, inKeyOf c date) ∈ st.store)
    (hne : (dfOf c env date).empty = false)
    (hcol : "Item_ID" ∈ (dfOf c env date).cols)
    (hfind : (env.reorder date (tasksOf c date (dfOf c env date))).find?
        (fun t => ! env.writeOk c.out_bucket t.1) = none)
    (hmk : env.writeOk c.out_bucket (markerKeyOf c date) = false) :
    processDate c env st date =
      (some (RunError.writeFailed c.out_bucket (markerKeyOf c date)),
        writePhase c env st date (dfOf c env date)) := by
  unfold processDate
  rw [if_pos hin, if_neg (by simp [hne]), if_pos hcol, hfind, if_neg (by simp [hmk])]

theorem runDates_cons_error {c : Cfg} {env : Env} {st st1 : RunState} {date : String}
    {rest : List String} {e : RunError}
    (h : processDate c env st date = (some e, st1)) :
    runDates c env st (date :: rest) = (some e, st1) := by
  rw [runDates, h]

theorem runDates_cons_ok {c : Cfg} {env : Env} {st st1 : RunState} {date : String}
    {rest : List String}
    (h : processDate c env st date = (none, st1)) :
    runDates c env st (date :: rest) = runDates c env st1 rest := by
  rw [runDates, h]

/-! ## Helper lemmas for the unit-level claims -/

theorem filter_markerPut_map_putObject (b : String) (l : List (String × List Row)) :
    (l.map (fun t => Event.putObject b t.1 t.2)).filter Event.isMarkerPut = [] := by
  induction l with
  | nil => rfl
  | cons a l ih =>
    simpa [List.map_cons, List.filter_cons, Event.isMarkerPut] using ih

theorem landedOf_all_ok {c : Cfg} {env : Env} {date : String} {df : DataFrame}
    (hwr : ∀ k, env.writeOk c.out_bucket k = true) :
    landedOf c env date df = tasksOf c date df :=
  List.filter_eq_self.mpr (fun t _ => hwr t.1)

theorem find?_fail_none {c : Cfg} {env : Env} {date : String} {df : DataFrame}
    (hwr : ∀ k, env.writeOk c.out_bucket k = true) :
    (env.reorder date (tasksOf c date df)).find?
      (fun t => ! env.writeOk c.out_bucket t.1) = none :=
  List.find?_eq_none.mpr (fun t _ => by simp [hwr t.1])

theorem tasksOf_null_row_free {c : Cfg} {date : String} {df : DataFrame} {r : Row}
    (hr : r.item_ID = none) : ∀ t ∈ tasksOf c date df, r ∉ t.2 := by
  intro t ht hrt
  rcases List.mem_map.mp ht with ⟨g, hg, rfl⟩
  have := groupby_mem_key hg hrt
  rw [hr] at this
  exact Option.noConfusion this

theorem filterMap_item_filter (rows : List Row) :
    (rows.filter (fun r => r.item_ID.isSome)).filterMap Row.item_ID =
      rows.filterMap Row.item_ID := by
  induction rows with
  | nil => rfl
  | cons r rows ih =>
    cases hid : r.item_ID with
    | none => simp [List.filter_cons, List.filterMap_cons, hid, ih]
    | some k => simp [List.filter_cons, List.filterMap_cons, hid, ih]

theorem distinctKeys_null_free (rows : List Row) :
    distinctKeys (rows.filter (fun r => r.item_ID.isSome)) = distinctKeys rows := by
  unfold distinctKeys
  rw [filterMap_item_filter]

/-! ## Claim C6: skip semantics -/

/-- Claim C6. A unit whose input object is absent at read time
(`NoSuchKey`) or whose input decodes to a zero-row table produces no
output objects and no marker (the state is returned unchanged), is not
treated as fatal (the loop body yields `none`), and the run continues
with the next unit. -/
theorem c6_skip_semantics (c : Cfg) (env : Env) (st : RunState) (date : String)
    (rest : List String)
    (h : (c.in_bucket, inKeyOf c date) ∉ st.store ∨
      ((c.in_bucket, inKeyOf c date) ∈ st.store ∧ (dfOf c env date).rows = [])) :
    processDate c env st date = (none, st) ∧
      runDates c env st (date :: rest) = runDates c env st rest := by
  have hp : processDate c env st date = (none, st) := by
    rcases h with h | ⟨h1, h2⟩
    · exact processDate_absent h
    · exact processDate_empty h1 (by simp [DataFrame.empty, h2])
  exact ⟨hp, runDates_cons_ok hp⟩

/-- Witness: the skip theorem applied to a store that lacks the input
object of the requested date. -/
theorem c6_skip_semantics_witness :
    processDate ⟨"k", "inb", "outb", "in/", "out/", "m/"⟩
        ⟨fun _ _ => ⟨["Item_ID"], []⟩, fun _ _ => true, fun _ l => l,
          fun _ => ⟨0, 0, 0, 0, 0, 0⟩⟩
        ⟨[], [], 0⟩ "20250101" = (none, ⟨[], [], 0⟩) :=
  (c6_skip_semantics _ _ _ _ [] (Or.inl (by decide))).1

/-! ## Claim C7: missing partition-key column -/

/-- Claim C7, as stated, is false on the code: the `df.empty` check of
line 154 runs before the `"Item_ID"` check of line 158, so a loaded
zero-row table that lacks the partition-key column is silently skipped;
the run does not abort and the subsequent unit is still processed. -/
theorem c7_schema_violation_counterexample :
    "Item_ID" ∉ (dfOf (normCfg cfgC7) envC7 "20250101").cols ∧
      "20250101" ∈ (process_kind cfgC7 envC7 storeC7).missing ∧
      (process_kind cfgC7 envC7 storeC7).error = none ∧
      (process_kind cfgC7 envC7 storeC7).processed = 1 := by
  refine ⟨by decide, by decide, by decide, by decide⟩

/-- Claim C7 (amended): if a loaded input table that is not empty (in
the pandas sense: both axes non-empty) lacks the `"Item_ID"` column,
the loop body raises the `ValueError` of line 159, which aborts the
entire run: no partition write and no marker happen for that unit (the
state is unchanged) and no later unit is attempted (the run's result no
longer depends on the remaining dates). -/
theorem c7_schema_violation_amended (c : Cfg) (env : Env) (st : RunState) (date : String)
    (rest : List String)
    (hin : (c.in_bucket, inKeyOf c date) ∈ st.store)
    (hne : (dfOf c env date).empty = false)
    (hcol : "Item_ID" ∉ (dfOf c env date).cols) :
    processDate c env st date = (some (RunError.noItemIdColumn (inKeyOf c date)), st) ∧
      runDates c env st (date :: rest) =
        (some (RunError.noItemIdColumn (inKeyOf c date)), st) := by
  have hp := processDate_no_col hin hne hcol
  exact ⟨hp, runDates_cons_error hp⟩

/-- Witness: the amended schema-violation theorem applied to a one-row
table without the partition-key column. -/
theorem c7_schema_violation_amended_witness :
    runDates ⟨"k", "inb", "outb", "in/", "out/", "m/"⟩
        ⟨fun _ _ => ⟨["foo"], [⟨some "A", 0⟩]⟩, fun _ _ => true, fun _ l => l,
          fun _ => ⟨0, 0, 0, 0, 0, 0⟩⟩
        ⟨[("inb", "in/20250101.parquet")], [], 0⟩ ["20250101", "20250108"] =
      (some (RunError.noItemIdColumn "in/20250101.parquet"),
        ⟨[("inb", "in/20250101.parquet")], [], 0⟩) :=
  (c7_schema_violation_amended _ _ _ _ ["20250108"]
    (by decide) (by decide) (by decide)).2

/-! ## Claim C3: write-failure propagation -/

/-- Claim C3. If, while processing a unit, the first task observed in
`as_completed` order whose result failed is `tbad`, then the whole run
terminates at once with that task's failure (the loop result no longer
depends on the remaining dates, so units after the failed one are not
attempted), no completion marker is written for the unit (the trace
gains no marker put), and the in-flight sibling writes are not
cancelled: every submitted task whose put succeeded still has its write
in the trace (and store). -/
theorem c3_write_failure_propagation (c : Cfg) (env : Env) (st : RunState) (date : String)
    (rest : List String) (tbad : String × List Row)
    (hin : (c.in_bucket, inKeyOf c date) ∈ st.store)
    (hne : (dfOf c env date).empty = false)
    (hcol : "Item_ID" ∈ (dfOf c env date).cols)
    (hfind : (env.reorder date (tasksOf c date (dfOf c env date))).find?
        (fun t => ! env.writeOk c.out_bucket t.1) = some tbad) :
    runDates c env st (date :: rest) =
      (some (RunError.writeFailed c.out_bucket tbad.1),
        writePhase c env st date (dfOf c env date)) ∧
      (writePhase c env st date (dfOf c env date)).events.filter Event.isMarkerPut =
        st.events.filter Event.isMarkerPut ∧
      (∀ t ∈ tasksOf c date (dfOf c env date), env.writeOk c.out_bucket t.1 = true →
        Event.putObject c.out_bucket t.1 t.2 ∈
          (writePhase c env st date (dfOf c env date)).events) := by
  refine ⟨runDates_cons_error (processDate_write_failed hin hne hcol hfind), ?_, ?_⟩
  · show (st.events ++ (landedOf c env date (dfOf c env date)).map
        (fun t => Event.putObject c.out_bucket t.1 t.2)).filter Event.isMarkerPut =
      st.events.filter Event.isMarkerPut
    rw [List.filter_append, filter_markerPut_map_putObject, List.append_nil]
  · intro t ht hok
    show Event.putObject c.out_bucket t.1 t.2 ∈
      st.events ++ (landedOf c env date (dfOf c env date)).map
        (fun t => Event.putObject c.out_bucket t.1 t.2)
    exact List.mem_append_right _
      (List.mem_map.mpr ⟨t, List.mem_filter.mpr ⟨ht, hok⟩, rfl⟩)

/-- Witness: the write-failure theorem applied to a two-partition unit
whose second write fails; the run dies with that failure and the first
partition's write is still in the trace. -/
theorem c3_write_failure_propagation_witness :
    runDates ⟨"k", "inb", "outb", "in/", "out/", "m/"⟩ envC3
        ⟨[("inb", "in/d.parquet")], [], 0⟩ ["d", "e"] =
      (some (RunError.writeFailed "outb" "out/B/d.parquet"),
        writePhase ⟨"k", "inb", "outb", "in/", "out/", "m/"⟩ envC3
          ⟨[("inb", "in/d.parquet")], [], 0⟩ "d"
          (dfOf ⟨"k", "inb", "outb", "in/", "out/", "m/"⟩ envC3 "d")) :=
  (c3_write_failure_propagation _ envC3 _ "d" ["e"] ("out/B/d.parquet", [⟨some "B", 1⟩])
    (by decide) (by decide) (by decide) (by decide)).1

/-! ## Claim C4: marker faithfulness -/

/-- Claim C4. For a successfully processed unit (input present,
non-empty, keyed, every put succeeding, `as_completed` yielding a
permutation of the submitted tasks) the completion marker is written
exactly once, strictly after every partition write of the unit (the
appended trace is the partition puts followed by the single marker
put); its `output_count` equals the number of distinct (non-null)
partition-key values of the unit's input; its `outputs` lists exactly
the locations written for the unit (a permutation of the submitted
output locations); and it carries exactly the fields kind / date /
input_key / outputs / output_count / generated_at, the latter being the
UTC `YYYY-MM-DDTHH:MM:SSZ` rendering of the clock as read when the
record is built. -/
theorem c4_marker_faithfulness (c : Cfg) (env : Env) (st : RunState) (date : String)
    (hin : (c.in_bucket, inKeyOf c date) ∈ st.store)
    (hne : (dfOf c env date).empty = false)
    (hcol : "Item_ID" ∈ (dfOf c env date).cols)
    (hwr : ∀ k, env.writeOk c.out_bucket k = true)
    (hre : (env.reorder date (tasksOf c date (dfOf c env date))).Perm
      (tasksOf c date (dfOf c env date))) :
    processDate c env st date =
      (none,
        { store := st.store ++ (tasksOf c date (dfOf c env date)).map
              (fun t => (c.out_bucket, t.1)) ++ [(c.out_bucket, markerKeyOf c date)]
          events := st.events ++ (tasksOf c date (dfOf c env date)).map
              (fun t => Event.putObject c.out_bucket t.1 t.2) ++
            [Event.putJson c.out_bucket (markerKeyOf c date)
              (markerDocOf c env date (dfOf c env date))]
          processed := st.processed + 1 }) ∧
      (markerDocOf c env date (dfOf c env date)).output_count =
        (distinctKeys (dfOf c env date).rows).length ∧
      (markerDocOf c env date (dfOf c env date)).outputs.Perm
        ((tasksOf c date (dfOf c env date)).map (fun t => s3Uri c.out_bucket t.1)) ∧
      (markerDocOf c env date (dfOf c env date)).kind = c.kind ∧
      (markerDocOf c env date (dfOf c env date)).date = date ∧
      (markerDocOf c env date (dfOf c env date)).input_key =
        s3Uri c.in_bucket (inKeyOf c date) ∧
      (markerDocOf c env date (dfOf c env date)).generated_at =
        fmtTimestamp (env.now date) ∧
      ((tasksOf c date (dfOf c env date)).map
        (fun t => Event.putObject c.out_bucket t.1 t.2)).filter Event.isMarkerPut = [] := by
  refine ⟨?_, ?_, hre.map _, rfl, rfl, rfl, rfl, filter_markerPut_map_putObject _ _⟩
  · rw [processDate_success hin hne hcol (find?_fail_none hwr) (hwr _)]
    simp only [writePhase, landedOf_all_ok hwr]
  · show ((env.reorder date (tasksOf c date (dfOf c env date))).map
        (fun t => s3Uri c.out_bucket t.1)).length =
      (distinctKeys (dfOf c env date).rows).length
    rw [List.length_map, hre.length_eq, tasksOf, List.length_map, groupby, List.length_map]

/-- Witness: the marker-faithfulness theorem applied to a concrete unit
with keys A (twice) and B; the marker counts 2 outputs. -/
theorem c4_marker_faithfulness_witness :
    (markerDocOf ⟨"k", "inb", "outb", "in/", "out/", "m/"⟩ envC4 "d"
        (dfOf ⟨"k", "inb", "outb", "in/", "out/", "m/"⟩ envC4 "d")).output_count =
      (distinctKeys (dfOf ⟨"k", "inb", "outb", "in/", "out/", "m/"⟩ envC4 "d").rows).length ∧
    (markerDocOf ⟨"k", "inb", "outb", "in/", "out/", "m/"⟩ envC4 "d"
        (dfOf ⟨"k", "inb", "outb", "in/", "out/", "m/"⟩ envC4 "d")).output_count = 2 :=
  ⟨(c4_marker_faithfulness _ envC4 ⟨[("inb", "in/d.parquet")], [], 0⟩ "d"
      (by decide) (by decide) (by decide) (fun k => rfl) (List.Perm.refl _)).2.1,
    by decide⟩

/-! ## Claim C9: null partition-key rows -/

/-- Claim C9. Under the same success conditions, rows whose `Item_ID`
is null appear in no emitted partition (hence in no written output
object), contribute nothing to the distinct-key count recorded in the
marker (dropping them leaves the key list unchanged), and yet the unit
completes normally: the marker put is still appended and `processed`
still increments. -/
theorem c9_null_key_rows (c : Cfg) (env : Env) (st : RunState) (date : String)
    (hin : (c.in_bucket, inKeyOf c date) ∈ st.store)
    (hne : (dfOf c env date).empty = false)
    (hcol : "Item_ID" ∈ (dfOf c env date).cols)
    (hwr : ∀ k, env.writeOk c.out_bucket k = true)
    (hre : (env.reorder date (tasksOf c date (dfOf c env date))).Perm
      (tasksOf c date (dfOf c env date))) :
    processDate c env st date =
      (none,
        { store := st.store ++ (tasksOf c date (dfOf c env date)).map
              (fun t => (c.out_bucket, t.1)) ++ [(c.out_bucket, markerKeyOf c date)]
          events := st.events ++ (tasksOf c date (dfOf c env date)).map
              (fun t => Event.putObject c.out_bucket t.1 t.2) ++
            [Event.putJson c.out_bucket (markerKeyOf c date)
              (markerDocOf c env date (dfOf c env date))]
          processed := st.processed + 1 }) ∧
      (∀ r ∈ (dfOf c env date).rows, r.item_ID = none →
        ∀ t ∈ tasksOf c date (dfOf c env date), r ∉ t.2) ∧
      distinctKeys ((dfOf c env date).rows.filter (fun r => r.item_ID.isSome)) =
        distinctKeys (dfOf c env date).rows ∧
      (markerDocOf c env date (dfOf c env date)).output_count =
        (distinctKeys (dfOf c env date).rows).length := by
  refine ⟨?_, ?_, distinctKeys_null_free _, ?_⟩
  · rw [processDate_success hin hne hcol (find?_fail_none hwr) (hwr _)]
    simp only [writePhase, landedOf_all_ok hwr]
  · intro r _ hr
    exact tasksOf_null_row_free hr
  · show ((env.reorder date (tasksOf c date (dfOf c env date))).map
        (fun t => s3Uri c.out_bucket t.1)).length =
      (distinctKeys (dfOf c env date).rows).length
    rw [List.length_map, hre.length_eq, tasksOf, List.length_map, groupby, List.length_map]

/-- Witness: the null-key theorem applied to a table with a null-keyed
row; the unit is still marked, with a single output counted. -/
theorem c9_null_key_rows_witness :
    (∀ r ∈ (dfOf ⟨"k", "inb", "outb", "in/", "out/", "m/"⟩ envC9 "d").rows,
      r.item_ID = none →
        ∀ t ∈ tasksOf ⟨"k", "inb", "outb", "in/", "out/", "m/"⟩ "d"
            (dfOf ⟨"k", "inb", "outb", "in/", "out/", "m/"⟩ envC9 "d"), r ∉ t.2) ∧
    (markerDocOf ⟨"k", "inb", "outb", "in/", "out/", "m/"⟩ envC9 "d"
        (dfOf ⟨"k", "inb", "outb", "in/", "out/", "m/"⟩ envC9 "d")).output_count = 1 :=
  ⟨(c9_null_key_rows _ envC9 ⟨[("inb", "in/d.parquet")], [], 0⟩ "d"
      (by decide) (by decide) (by decide) (fun k => rfl) (List.Perm.refl _)).2.1,
    by decide⟩

/-! ## Claim C8: key conventions -/

/-- Claim C8. Every store key follows the fixed conventions of lines
145, 167 and 176: the input key is `{IN_PREFIX}{date}.parquet`, the
marker key is `{MARKER_PREFIX}{date}.json`, and the submitted output
keys are exactly `{OUT_PREFIX}{keyValue}/{date}.parquet`, one per
distinct partition-key value (all prefixes normalized to end in one
separator). The output location depends only on (key value, unit): the
key builder is injective in the key value, so the keys of one unit's
partitions never collide (they are pairwise distinct), and re-running a
unit against an input with the same distinct key values yields exactly
the same output keys. -/
theorem c8_key_conventions (c : Cfg) (date : String) (df : DataFrame) :
    inKeyOf (normCfg c) date = normPfx c.inPfx ++ date ++ ".parquet" ∧
      markerKeyOf (normCfg c) date = normPfx c.markerPfx ++ date ++ ".json" ∧
      (tasksOf (normCfg c) date df).map Prod.fst =
        (distinctKeys df.rows).map
          (fun k => normPfx c.outPfx ++ k ++ "/" ++ date ++ ".parquet") ∧
      (∀ k1 k2 : String,
        normPfx c.outPfx ++ k1 ++ "/" ++ date ++ ".parquet" =
          normPfx c.outPfx ++ k2 ++ "/" ++ date ++ ".parquet" → k1 = k2) ∧
      ((tasksOf (normCfg c) date df).map Prod.fst).Nodup ∧
      (∀ df2 : DataFrame, distinctKeys df2.rows = distinctKeys df.rows →
        (tasksOf (normCfg c) date df2).map Prod.fst =
          (tasksOf (normCfg c) date df).map Prod.fst) := by
  have hmap : ∀ df2 : DataFrame,
      (tasksOf (normCfg c) date df2).map Prod.fst =
        (distinctKeys df2.rows).map
          (fun k => normPfx c.outPfx ++ k ++ "/" ++ date ++ ".parquet") := by
    intro df2
    simp [tasksOf, groupby, List.map_map]
    intro a _
    rfl
  have hinj : Function.Injective
      (fun k => normPfx c.outPfx ++ k ++ "/" ++ date ++ ".parquet") := by
    intro k1 k2 h
    have h1 := str_append_right_cancel h
    have h2 := str_append_right_cancel h1
    have h3 := str_append_right_cancel h2
    exact str_append_left_cancel h3
  refine ⟨rfl, rfl, hmap df, fun k1 k2 h => hinj h, ?_, ?_⟩
  · rw [hmap df]
    exact (nodup_distinctKeys _).map hinj
  · intro df2 h
    rw [hmap df2, hmap df, h]

/-- Witness: the key-conventions theorem applied at a concrete
configuration and table; the two submitted keys are distinct. -/
theorem c8_key_conventions_witness :
    (tasksOf (normCfg ⟨"k", "inb", "outb", "in", "out", "m"⟩) "d"
        ⟨["Item_ID"], [⟨some "A", 0⟩, ⟨some "B", 1⟩]⟩).map Prod.fst =
      ["out/A/d.parquet", "out/B/d.parquet"] ∧
    ((tasksOf (normCfg ⟨"k", "inb", "outb", "in", "out", "m"⟩) "d"
        ⟨["Item_ID"], [⟨some "A", 0⟩, ⟨some "B", 1⟩]⟩).map Prod.fst).Nodup :=
  ⟨by decide,
    (c8_key_conventions ⟨"k", "inb", "outb", "in", "out", "m"⟩ "d"
      ⟨["Item_ID"], [⟨some "A", 0⟩, ⟨some "B", 1⟩]⟩).2.2.2.2.1⟩

/-! ## Shape of the per-date loop's state evolution -/

theorem bool_eq_false {b : Bool} (h : ¬ b = true) : b = false := by
  cases b
  · rfl
  · exact absurd rfl h

theorem processDate_shape (c : Cfg) (env : Env) (st : RunState) (date : String) :
    ∃ exS exE,
      (processDate c env st date).2.store = st.store ++ exS ∧
      (processDate c env st date).2.events = st.events ++ exE ∧
      (∀ o ∈ exS, o.1 = c.out_bucket) ∧ (∀ e ∈ exE, Event.bucket e = c.out_bucket) := by
  by_cases hin : (c.in_bucket, inKeyOf c date) ∈ st.store
  · by_cases hemp : (dfOf c env date).empty = true
    · refine ⟨[], [], ?_, ?_, by simp, by simp⟩
      · rw [processDate_empty hin hemp, List.append_nil]
      · rw [processDate_empty hin hemp, List.append_nil]
    · have hne := bool_eq_false hemp
      by_cases hcol : "Item_ID" ∈ (dfOf c env date).cols
      · cases hfind : (env.reorder date (tasksOf c date (dfOf c env date))).find?
            (fun t => ! env.writeOk c.out_bucket t.1) with
        | some t =>
          refine ⟨(landedOf c env date (dfOf c env date)).map (fun u => (c.out_bucket, u.1)),
            (landedOf c env date (dfOf c env date)).map
              (fun u => Event.putObject c.out_bucket u.1 u.2), ?_, ?_, ?_, ?_⟩
          · rw [processDate_write_failed hin hne hcol hfind]
            rfl
          · rw [processDate_write_failed hin hne hcol hfind]
            rfl
          · intro o ho
            rcases List.mem_map.mp ho with ⟨u, _, rfl⟩
            rfl
          · intro e he
            rcases List.mem_map.mp he with ⟨u, _, rfl⟩
            rfl
        | none =>
          by_cases hmk : env.writeOk c.out_bucket (markerKeyOf c date) = true
          · refine ⟨(landedOf c env date (dfOf c env date)).map (fun u => (c.out_bucket, u.1)) ++
                [(c.out_bucket, markerKeyOf c date)],
              (landedOf c env date (dfOf c env date)).map
                  (fun u => Event.putObject c.out_bucket u.1 u.2) ++
                [Event.putJson c.out_bucket (markerKeyOf c date)
                  (markerDocOf c env date (dfOf c env date))], ?_, ?_, ?_, ?_⟩
            · rw [processDate_success hin hne hcol hfind hmk]
              exact List.append_assoc _ _ _
            · rw [processDate_success hin hne hcol hfind hmk]
              exact List.append_assoc _ _ _
            · intro o ho
              rcases List.mem_append.mp ho with h | h
              · rcases List.mem_map.mp h with ⟨u, _, rfl⟩
                rfl
              · rw [List.mem_singleton] at h
                subst h
                rfl
            · intro e he
              rcases List.mem_append.mp he with h | h
              · rcases List.mem_map.mp h with ⟨u, _, rfl⟩
                rfl
              · rw [List.mem_singleton] at h
                subst h
                rfl
          · have hmk2 := bool_eq_false hmk
            refine ⟨(landedOf c env date (dfOf c env date)).map (fun u => (c.out_bucket, u.1)),
              (landedOf c env date (dfOf c env date)).map
                (fun u => Event.putObject c.out_bucket u.1 u.2), ?_, ?_, ?_, ?_⟩
            · rw [processDate_marker_failed hin hne hcol hfind hmk2]
              rfl
            · rw [processDate_marker_failed hin hne hcol hfind hmk2]
              rfl
            · intro o ho
              rcases List.mem_map.mp ho with ⟨u, _, rfl⟩
              rfl
            · intro e he
              rcases List.mem_map.mp he with ⟨u, _, rfl⟩
              rfl
      · refine ⟨[], [], ?_, ?_, by simp, by simp⟩
        · rw [processDate_no_col hin hne hcol, List.append_nil]
        · rw [processDate_no_col hin hne hcol, List.append_nil]
  · refine ⟨[], [], ?_, ?_, by simp, by simp⟩
    · rw [processDate_absent hin, List.append_nil]
    · rw [processDate_absent hin, List.append_nil]

theorem runDates_shape (c : Cfg) (env : Env) (dates : List String) :
    ∀ st : RunState, ∃ exS exE,
      (runDates c env st dates).2.store = st.store ++ exS ∧
      (runDates c env st dates).2.events = st.events ++ exE ∧
      (∀ o ∈ exS, o.1 = c.out_bucket) ∧ (∀ e ∈ exE, Event.bucket e = c.out_bucket) := by
  induction dates with
  | nil =>
    intro st
    exact ⟨[], [], by simp [runDates], by simp [runDates], by simp, by simp⟩
  | cons d rest ih =>
    intro st
    obtain ⟨eS, eE, h1, h2, h3, h4⟩ := processDate_shape c env st d
    cases hp : processDate c env st d with
    | mk err st1 =>
      have h1s : st1.store = st.store ++ eS := by rw [hp] at h1; exact h1
      have h2s : st1.events = st.events ++ eE := by rw [hp] at h2; exact h2
      cases err with
      | some e =>
        rw [runDates_cons_error hp]
        exact ⟨eS, eE, h1s, h2s, h3, h4⟩
      | none =>
        rw [runDates_cons_ok hp]
        obtain ⟨fS, fE, g1, g2, g3, g4⟩ := ih st1
        refine ⟨eS ++ fS, eE ++ fE, ?_, ?_, ?_, ?_⟩
        · rw [g1, h1s, List.append_assoc]
        · rw [g2, h2s, List.append_assoc]
        · intro o ho
          rcases List.mem_append.mp ho with h | h
          · exact h3 o h
          · exact g3 o h
        · intro e he
          rcases List.mem_append.mp he with h | h
          · exact h4 e h
          · exact g4 e h

theorem runDates_store_mono (c : Cfg) (env : Env) (dates : List String) (st : RunState)
    {x : String × String} (hx : x ∈ st.store) :
    x ∈ (runDates c env st dates).2.store := by
  obtain ⟨eS, _, h1, _, _, _⟩ := runDates_shape c env dates st
  rw [h1]
  exact List.mem_append_left _ hx

theorem runDates_none_markers (c : Cfg) (env : Env) :
    ∀ (dates : List String) (st st' : RunState),
      runDates c env st dates = (none, st') →
      ∀ d ∈ dates, (c.in_bucket, inKeyOf c d) ∈ st.store →
        (dfOf c env d).empty = false →
        (c.out_bucket, markerKeyOf c d) ∈ st'.store := by
  intro dates
  induction dates with
  | nil =>
    intro st st' _ d hd
    exact absurd hd (List.not_mem_nil d)
  | cons d0 rest ih =>
    intro st st' h d hd hin0 hne0
    cases hp : processDate c env st d0 with
    | mk err st1 =>
      cases err with
      | some e =>
        rw [runDates_cons_error hp] at h
        simp at h
      | none =>
        rw [runDates_cons_ok hp] at h
        rcases List.mem_cons.mp hd with rfl | hd2
        · by_cases hcol : "Item_ID" ∈ (dfOf c env d).cols
          · cases hfind : (env.reorder d (tasksOf c d (dfOf c env d))).find?
                (fun t => ! env.writeOk c.out_bucket t.1) with
            | some t =>
              rw [processDate_write_failed hin0 hne0 hcol hfind] at hp
              simp at hp
            | none =>
              by_cases hmk : env.writeOk c.out_bucket (markerKeyOf c d) = true
              · rw [processDate_success hin0 hne0 hcol hfind hmk] at hp
                have hst1 : st1 =
                    { store := (writePhase c env st d (dfOf c env d)).store ++
                        [(c.out_bucket, markerKeyOf c d)]
                      events := (writePhase c env st d (dfOf c env d)).events ++
                        [Event.putJson c.out_bucket (markerKeyOf c d)
                          (markerDocOf c env d (dfOf c env d))]
                      processed := (writePhase c env st d (dfOf c env d)).processed + 1 } := by
                  have := congrArg Prod.snd hp
                  exact this.symm
                have hmem : (c.out_bucket, markerKeyOf c d) ∈ st1.store := by
                  rw [hst1]
                  exact List.mem_append_right _ (List.mem_singleton.mpr rfl)
                have := runDates_store_mono c env rest st1 hmem
                rw [h] at this
                exact this
              · rw [processDate_marker_failed hin0 hne0 hcol hfind (bool_eq_false hmk)] at hp
                simp at hp
          · rw [processDate_no_col hin0 hne0 hcol] at hp
            simp at hp
        · obtain ⟨eS, _, h1, _, _, _⟩ := processDate_shape c env st d0
          rw [hp] at h1
          have h1s : st1.store = st.store ++ eS := h1
          exact ih st1 st' h d hd2 (by rw [h1s]; exact List.mem_append_left _ hin0) hne0

/-! ## Listing lemmas -/

theorem list_keys_append (s1 s2 : List (String × String)) (b p sfx : String) :
    list_keys_with_suffix (s1 ++ s2) b p sfx =
      list_keys_with_suffix s1 b p sfx ++ list_keys_with_suffix s2 b p sfx := by
  unfold list_keys_with_suffix
  rw [List.filter_append, List.map_append, List.filter_append]

theorem list_keys_other_bucket {s : List (String × String)} {b b2 p sfx : String}
    (hb : ∀ o ∈ s, o.1 = b2) (hne : b2 ≠ b) :
    list_keys_with_suffix s b p sfx = [] := by
  unfold list_keys_with_suffix
  have hfil : s.filter (fun o => decide (o.1 = b) && strStartsWith o.2 p) = [] := by
    rw [List.filter_eq_nil_iff]
    intro o ho
    simp [hb o ho, hne]
  rw [hfil]
  rfl

theorem mem_list_keys {s : List (String × String)} {b p sfx k : String} :
    k ∈ list_keys_with_suffix s b p sfx ↔
      (b, k) ∈ s ∧ strStartsWith k p = true ∧ strEndsWith k sfx = true := by
  unfold list_keys_with_suffix
  rw [List.mem_filter]
  constructor
  · rintro ⟨hmem, hend⟩
    rcases List.mem_map.mp hmem with ⟨o, ho, rfl⟩
    rcases List.mem_filter.mp ho with ⟨hos, hcond⟩
    rw [Bool.and_eq_true] at hcond
    have hob : o.1 = b := of_decide_eq_true hcond.1
    have hpair : (b, o.2) = o := by rw [← hob]
    exact ⟨hpair ▸ hos, hcond.2, hend⟩
  · rintro ⟨hbk, hst, hend⟩
    exact ⟨List.mem_map.mpr
      ⟨(b, k), List.mem_filter.mpr ⟨hbk, by simp [hst]⟩, rfl⟩, hend⟩

/-! ## Marker-key round trip -/

theorem marker_key_extracts {mp d : String} (hmp : ∃ l, mp.data = l ++ ['/'])
    (hd : ∀ c2 ∈ d.data, c2 ≠ '/') :
    lastSegment (mp ++ d ++ ".json") = d ++ ".json" := by
  rw [str_append_assoc]
  apply lastSegment_append hmp
  intro c2 hc2
  rw [str_append_data] at hc2
  rcases List.mem_append.mp hc2 with h | h
  · exact hd c2 h
  · intro heq
    subst heq
    revert h
    decide

theorem marker_in_done {c : Cfg} {store : List (String × String)} {d : String}
    (hm : (c.out_bucket, markerKeyOf c d) ∈ store)
    (hmp : ∃ l, c.markerPfx.data = l ++ ['/'])
    (hd : ∀ c2 ∈ d.data, c2 ≠ '/') :
    d ∈ doneDatesOf c store := by
  apply mem_extract_dates_from_marker_keys.mpr
  refine ⟨markerKeyOf c d, ?_, ?_, ?_⟩
  · apply mem_list_keys.mpr
    refine ⟨hm, ?_, ?_⟩
    · rw [markerKeyOf, str_append_assoc]
      exact strStartsWith_append _ _
    · rw [markerKeyOf]
      exact strEndsWith_append _ _
  · rw [markerKeyOf, marker_key_extracts hmp hd]
    exact strEndsWith_append _ _
  · rw [markerKeyOf, marker_key_extracts hmp hd]
    have h5 : strDropRight (d ++ ".json") ((".json" : String).data.length) = d :=
      strDropRight_append d ".json"
    exact h5

theorem doneDatesOf_mono {c : Cfg} {s ex : List (String × String)} {d : String}
    (h : d ∈ doneDatesOf c s) : d ∈ doneDatesOf c (s ++ ex) := by
  rcases mem_extract_dates_from_marker_keys.mp h with ⟨k, hk, h1, h2⟩
  apply mem_extract_dates_from_marker_keys.mpr
  refine ⟨k, ?_, h1, h2⟩
  rw [list_keys_append]
  exact List.mem_append_left _ hk

/-! ## Claim C5: idempotent resumption -/

/-- Claim C5. Run the orchestrator once from `store0`; suppose the run
raised no exception and completed every outstanding unit (each
outstanding date's input object is present under the conventional key
and decodes to a non-empty table), and that the input and output
namespaces are distinct buckets. Then a second run against the store
state left by the first computes an empty outstanding set and performs
zero writes: no events, an unchanged store and a zero processed
counter. -/
theorem c5_idempotent_resumption (c : Cfg) (env : Env) (store0 : List (String × String))
    (hb : c.in_bucket ≠ c.out_bucket)
    (herr : (process_kind c env store0).error = none)
    (hcompl : ∀ d ∈ (process_kind c env store0).missing,
      (c.in_bucket, inKeyOf (normCfg c) d) ∈ store0 ∧
        (dfOf (normCfg c) env d).empty = false) :
    (process_kind c env (process_kind c env store0).store).missing = [] ∧
      (process_kind c env (process_kind c env store0).store).events = [] ∧
      (process_kind c env (process_kind c env store0).store).store =
        (process_kind c env store0).store ∧
      (process_kind c env (process_kind c env store0).store).processed = 0 := by
  have hrdeq : runDates (normCfg c) env ⟨store0, [], 0⟩ ((process_kind c env store0).missing) =
      (none,
        (runDates (normCfg c) env ⟨store0, [], 0⟩ ((process_kind c env store0).missing)).2) := by
    have h1 : (runDates (normCfg c) env ⟨store0, [], 0⟩
        ((process_kind c env store0).missing)).1 = none := herr
    calc runDates (normCfg c) env ⟨store0, [], 0⟩ ((process_kind c env store0).missing) =
        ((runDates (normCfg c) env ⟨store0, [], 0⟩ ((process_kind c env store0).missing)).1,
          (runDates (normCfg c) env ⟨store0, [], 0⟩
            ((process_kind c env store0).missing)).2) := rfl
      _ = _ := by rw [h1]
  obtain ⟨eS, eE, hS, hE, hSb, hEb⟩ :=
    runDates_shape (normCfg c) env ((process_kind c env store0).missing) ⟨store0, [], 0⟩
  have hstore1 : (process_kind c env store0).store = store0 ++ eS := hS
  have hmark : ∀ d ∈ (process_kind c env store0).missing,
      (c.out_bucket, markerKeyOf (normCfg c) d) ∈ (process_kind c env store0).store := by
    intro d hd
    exact runDates_none_markers (normCfg c) env ((process_kind c env store0).missing)
      ⟨store0, [], 0⟩
      (runDates (normCfg c) env ⟨store0, [], 0⟩ ((process_kind c env store0).missing)).2
      hrdeq d hd (hcompl d hd).1 (hcompl d hd).2
  have hm1 : ∀ d, d ∈ (process_kind c env store0).missing ↔
      d ∈ inputDatesOf (normCfg c) store0 ∧ d ∉ doneDatesOf (normCfg c) store0 := by
    intro d
    show d ∈ ((inputDatesOf (normCfg c) store0).filter
      (fun d2 => decide (d2 ∉ doneDatesOf (normCfg c) store0))).insertionSort strLe ↔ _
    rw [(List.perm_insertionSort strLe _).mem_iff, List.mem_filter]
    simp
  have hinp : inputDatesOf (normCfg c) (process_kind c env store0).store =
      inputDatesOf (normCfg c) store0 := by
    rw [hstore1]
    unfold inputDatesOf
    have hb2 : (normCfg c).out_bucket ≠ (normCfg c).in_bucket := Ne.symm hb
    rw [list_keys_append, list_keys_other_bucket hSb hb2, List.append_nil]
  have hsub : ∀ d ∈ inputDatesOf (normCfg c) store0,
      d ∈ doneDatesOf (normCfg c) (process_kind c env store0).store := by
    intro d hdI
    by_cases hdone : d ∈ doneDatesOf (normCfg c) store0
    · rw [hstore1]
      exact doneDatesOf_mono hdone
    · have hdm : d ∈ (process_kind c env store0).missing := (hm1 d).mpr ⟨hdI, hdone⟩
      exact marker_in_done (hmark d hdm) (normPfx_ends_slash c.markerPfx)
        (extract_dates_no_slash hdI)
  have hm2exp : ((inputDatesOf (normCfg c) (process_kind c env store0).store).filter
      (fun d2 => decide (d2 ∉ doneDatesOf (normCfg c)
        (process_kind c env store0).store))).insertionSort strLe = [] := by
    rw [hinp]
    have hfil : (inputDatesOf (normCfg c) store0).filter
        (fun d2 => decide (d2 ∉ doneDatesOf (normCfg c)
          (process_kind c env store0).store)) = [] := by
      rw [List.filter_eq_nil_iff]
      intro d hd
      simp [hsub d hd]
    rw [hfil]
    rfl
  have hrun2 : process_kind c env (process_kind c env store0).store =
      ⟨[], none, (process_kind c env store0).store, [], 0⟩ := by
    generalize (process_kind c env store0).store = s1 at hm2exp ⊢
    simp only [process_kind]
    rw [hm2exp]
    rfl
  refine ⟨?_, ?_, ?_, ?_⟩
  · rw [hrun2]
  · rw [hrun2]
  · rw [hrun2]
  · rw [hrun2]

/-- Witness: the idempotence theorem applied to a store with one
outstanding unit; the second run is empty. -/
theorem c5_idempotent_resumption_witness :
    (process_kind cfgC5 envC5 (process_kind cfgC5 envC5 storeC5).store).missing = [] ∧
      (process_kind cfgC5 envC5 (process_kind cfgC5 envC5 storeC5).store).events = [] := by
  have h := c5_idempotent_resumption cfgC5 envC5 storeC5 (by decide) (by decide) (by decide)
  exact ⟨h.1, h.2.1⟩

/-! ## A delta characterization of the loop body -/

theorem processDate_eq_delta (c : Cfg) (env : Env) (st : RunState) (d : String) :
    processDate c env st d =
      ((dateDelta c env d (decide ((c.in_bucket, inKeyOf c d) ∈ st.store))).1,
        ⟨st.store ++ (dateDelta c env d (decide ((c.in_bucket, inKeyOf c d) ∈ st.store))).2.1,
          st.events ++
            (dateDelta c env d (decide ((c.in_bucket, inKeyOf c d) ∈ st.store))).2.2.1,
          st.processed +
            (dateDelta c env d (decide ((c.in_bucket, inKeyOf c d) ∈ st.store))).2.2.2⟩) := by
  obtain ⟨s0, ev0, n0⟩ := st
  by_cases hin : (c.in_bucket, inKeyOf c d) ∈ s0
  · rw [decide_eq_true hin]
    by_cases hemp : (dfOf c env d).empty = true
    · rw [processDate_empty hin hemp]
      simp [dateDelta, hemp]
    · have hne := bool_eq_false hemp
      by_cases hcol : "Item_ID" ∈ (dfOf c env d).cols
      · cases hfind : (env.reorder d (tasksOf c d (dfOf c env d))).find?
            (fun t => ! env.writeOk c.out_bucket t.1) with
        | some t =>
          rw [processDate_write_failed hin hne hcol hfind]
          simp [dateDelta, hne, hcol, hfind, writePhase]
        | none =>
          by_cases hmk : env.writeOk c.out_bucket (markerKeyOf c d) = true
          · rw [processDate_success hin hne hcol hfind hmk]
            simp [dateDelta, hne, hcol, hfind, hmk, writePhase, List.append_assoc]
          · have hmk2 := bool_eq_false hmk
            rw [processDate_marker_failed hin hne hcol hfind hmk2]
            simp [dateDelta, hne, hcol, hfind, hmk2, writePhase]
      · rw [processDate_no_col hin hne hcol]
        simp [dateDelta, hne, hcol]
  · rw [decide_eq_false hin, processDate_absent hin]
    simp [dateDelta]

/-- Inserting one object that never matches any date's input key into
the middle of the store leaves the loop's observable behavior (the
escaping exception, the trace and the processed counter) unchanged. -/
theorem runDates_insert_frame (c : Cfg) (env : Env) (p : String × String)
    (hp : ∀ d : String, p ≠ (c.in_bucket, inKeyOf c d)) :
    ∀ (dates : List String) (base ex : List (String × String)) (ev : List Event) (n : Nat),
      (runDates c env ⟨base ++ [p] ++ ex, ev, n⟩ dates).1 =
          (runDates c env ⟨base ++ ex, ev, n⟩ dates).1 ∧
        (runDates c env ⟨base ++ [p] ++ ex, ev, n⟩ dates).2.events =
          (runDates c env ⟨base ++ ex, ev, n⟩ dates).2.events ∧
        (runDates c env ⟨base ++ [p] ++ ex, ev, n⟩ dates).2.processed =
          (runDates c env ⟨base ++ ex, ev, n⟩ dates).2.processed := by
  intro dates
  induction dates with
  | nil =>
    intro base ex ev n
    exact ⟨rfl, rfl, rfl⟩
  | cons d rest ih =>
    intro base ex ev n
    have hmem : ((c.in_bucket, inKeyOf c d) ∈ base ++ [p] ++ ex) ↔
        ((c.in_bucket, inKeyOf c d) ∈ base ++ ex) := by
      simp only [List.mem_append, List.mem_singleton]
      constructor
      · rintro ((h | h) | h)
        · exact Or.inl h
        · exact absurd h.symm (hp d)
        · exact Or.inr h
      · rintro (h | h)
        · exact Or.inl (Or.inl h)
        · exact Or.inr h
    have hdec : decide ((c.in_bucket, inKeyOf c d) ∈ base ++ [p] ++ ex) =
        decide ((c.in_bucket, inKeyOf c d) ∈ base ++ ex) :=
      decide_eq_decide.mpr hmem
    have h1 := processDate_eq_delta c env ⟨base ++ [p] ++ ex, ev, n⟩ d
    have h2 := processDate_eq_delta c env ⟨base ++ ex, ev, n⟩ d
    rw [show ((⟨base ++ [p] ++ ex, ev, n⟩ : RunState)).store = base ++ [p] ++ ex from rfl,
      hdec] at h1
    cases hD : dateDelta c env d (decide ((c.in_bucket, inKeyOf c d) ∈ base ++ ex)) with
    | mk err rest2 =>
      obtain ⟨ds, de, dn⟩ := rest2
      rw [hD] at h1 h2
      cases err with
      | some e =>
        rw [runDates_cons_error h1, runDates_cons_error h2]
        exact ⟨rfl, rfl, rfl⟩
      | none =>
        rw [runDates_cons_ok h1, runDates_cons_ok h2,
          List.append_assoc (base ++ [p]) ex ds, List.append_assoc base ex ds]
        exact ih base (ex ++ ds) (ev ++ de) (n + dn)

/-! ## Claim C10: marker bucket and write frame -/

theorem list_keys_single_wrong_suffix {bm m b p sfx : String}
    (hm : strEndsWith m sfx = false) :
    list_keys_with_suffix [(bm, m)] b p sfx = [] := by
  unfold list_keys_with_suffix
  by_cases hc : (decide (bm = b) && strStartsWith m p) = true
  · simp [List.filter_cons, hc, hm]
  · simp [List.filter_cons, hc]

/-- Claim C10. Every put of a run targets the output bucket: all trace
events have bucket `OUT_BUCKET`, so nothing is ever written to the
input bucket. Completion markers are both written to and listed from
the output bucket under the marker prefix: placing an extra
`.json` object into the *input* bucket changes nothing observable
about a run — same outstanding list, same result, same trace, same
processed count (assuming distinct input and output buckets). -/
theorem c10_marker_bucket_frame (c : Cfg) (env : Env) (store0 : List (String × String))
    (m : String) (hm : strEndsWith m ".json" = true) (hb : c.in_bucket ≠ c.out_bucket) :
    (∀ e ∈ (process_kind c env store0).events, Event.bucket e = c.out_bucket) ∧
      (process_kind c env (store0 ++ [(c.in_bucket, m)])).missing =
        (process_kind c env store0).missing ∧
      (process_kind c env (store0 ++ [(c.in_bucket, m)])).error =
        (process_kind c env store0).error ∧
      (process_kind c env (store0 ++ [(c.in_bucket, m)])).events =
        (process_kind c env store0).events ∧
      (process_kind c env (store0 ++ [(c.in_bucket, m)])).processed =
        (process_kind c env store0).processed := by
  have hev : ∀ e ∈ (process_kind c env store0).events, Event.bucket e = c.out_bucket := by
    obtain ⟨eS, eE, hS, hE, hSb, hEb⟩ :=
      runDates_shape (normCfg c) env ((process_kind c env store0).missing) ⟨store0, [], 0⟩
    have h2 : (process_kind c env store0).events = [] ++ eE := hE
    rw [List.nil_append] at h2
    intro e he
    exact hEb e (h2 ▸ he)
  have hinp2 : inputDatesOf (normCfg c) (store0 ++ [(c.in_bucket, m)]) =
      inputDatesOf (normCfg c) store0 := by
    unfold inputDatesOf
    rw [list_keys_append, list_keys_single_wrong_suffix (ends_json_not_parquet hm),
      List.append_nil]
  have hdone2 : doneDatesOf (normCfg c) (store0 ++ [(c.in_bucket, m)]) =
      doneDatesOf (normCfg c) store0 := by
    unfold doneDatesOf
    have hball : ∀ o ∈ [((c.in_bucket : String), m)], o.1 = c.in_bucket := by simp
    have hneq : c.in_bucket ≠ (normCfg c).out_bucket := hb
    rw [list_keys_append, list_keys_other_bucket hball hneq, List.append_nil]
  have hp : ∀ d : String,
      (c.in_bucket, m) ≠ ((normCfg c).in_bucket, inKeyOf (normCfg c) d) := by
    intro d heq
    have hm2 : m = inKeyOf (normCfg c) d := congrArg Prod.snd heq
    have hpq : strEndsWith (inKeyOf (normCfg c) d) ".parquet" = true := by
      rw [inKeyOf]
      exact strEndsWith_append _ _
    have hjn := ends_parquet_not_json hpq
    rw [← hm2, hm] at hjn
    exact Bool.noConfusion hjn
  have hfr := runDates_insert_frame (normCfg c) env (c.in_bucket, m) hp
    (((inputDatesOf (normCfg c) store0).filter
      (fun d => decide (d ∉ doneDatesOf (normCfg c) store0))).insertionSort strLe)
    store0 [] [] 0
  simp only [List.append_nil] at hfr
  refine ⟨hev, ?_, ?_, ?_, ?_⟩
  · show ((inputDatesOf (normCfg c) (store0 ++ [(c.in_bucket, m)])).filter
        (fun d => decide (d ∉ doneDatesOf (normCfg c)
          (store0 ++ [(c.in_bucket, m)])))).insertionSort strLe =
      ((inputDatesOf (normCfg c) store0).filter
        (fun d => decide (d ∉ doneDatesOf (normCfg c) store0))).insertionSort strLe
    rw [hinp2, hdone2]
  · simp only [process_kind]
    rw [hinp2, hdone2]
    exact hfr.1
  · simp only [process_kind]
    rw [hinp2, hdone2]
    exact hfr.2.1
  · simp only [process_kind]
    rw [hinp2, hdone2]
    exact hfr.2.2

/-- Witness: the frame theorem applied to a one-input store and a stray
`.json` object placed in the input bucket. -/
theorem c10_marker_bucket_frame_witness :
    (∀ e ∈ (process_kind ⟨"k", "inb", "outb", "in", "out", "m"⟩ envC10
        [("inb", "in/20250101.parquet")]).events, Event.bucket e = "outb") ∧
      (process_kind ⟨"k", "inb", "outb", "in", "out", "m"⟩ envC10
          ([("inb", "in/20250101.parquet")] ++ [("inb", "m/sneaky.json")])).missing =
        (process_kind ⟨"k", "inb", "outb", "in", "out", "m"⟩ envC10
          [("inb", "in/20250101.parquet")]).missing := by
  have h := c10_marker_bucket_frame ⟨"k", "inb", "outb", "in", "out", "m"⟩ envC10
    [("inb", "in/20250101.parquet")] "m/sneaky.json" (by decide) (by decide)
  exact ⟨h.1, h.2.1⟩

end GlueParquetSplitter
